import Mathlib

/-!
Verification of the crawler implementation in `lab_5_scraper/scraper.py`.

Strings are modelled as lists of characters (`Str`).  Python values that
flow through the configuration file are modelled by the inductive `PyVal`;
Python's `isinstance` tests are mirrored by `pyIsInt` / `pyIsBool` /
`pyIsStr` / `pyIsList` / `pyIsDict` (note that in Python `bool` is a
subclass of `int`, so `isinstance(True, int)` holds).  Fallible code is
modelled with `Except` / `Option`.
-/

abbrev Str := List Char

/-- Coerce a Lean string literal to the character-list representation. -/
def chars (s : String) : Str := s.data

/-- Python `str.startswith` on a single pattern. -/
def pyStartsWith (pre s : Str) : Bool := pre.isPrefixOf s

/-- Python whitespace as used by `str.strip()` (ASCII whitespace). -/
def pySpace (c : Char) : Bool :=
  c = ' ' ∨ c = '\t' ∨ c = '\n' ∨ c = '\r' ∨ c = '\x0b' ∨ c = '\x0c'

/-- Python `str.strip()`: remove leading and trailing whitespace. -/
def pyStrip (s : Str) : Str :=
  ((s.dropWhile pySpace).reverse.dropWhile pySpace).reverse

/-- Python `str.split(sep)` for a one-character separator: splits at every
occurrence of the separator, keeping empty segments. -/
def pySplit (sep : Char) : Str → List Str
  | [] => [[]]
  | c :: rest =>
    if c = sep then [] :: pySplit sep rest
    else
      match pySplit sep rest with
      | [] => [[c]]
      | t :: ts => (c :: t) :: ts

/-- Python `str.replace(old, new)` for a one-character `old`. -/
def replaceChar (c : Char) (rep : Str) : Str → Str
  | [] => []
  | x :: xs => (if x = c then rep else [x]) ++ replaceChar c rep xs

/-- Python `sep.join(parts)` for `sep = "\n"`. -/
def joinNL : List Str → Str
  | [] => []
  | x :: xs => x ++ xs.flatMap (fun y => '\n' :: y)

/-! ## Python values and the configuration gate (`Config._validate_config_content`) -/

/-- A Python value as it can appear in the parsed JSON configuration. -/
inductive PyVal where
  | int (n : Int)
  | bool (b : Bool)
  | str (s : Str)
  | list (xs : List PyVal)
  | dict (entries : List (Str × PyVal))
deriving Repr

/-- Python `isinstance(v, int)`: true for `int` and for `bool`
(`bool` is a subclass of `int`). -/
def pyIsInt : PyVal → Bool
  | .int _ => true
  | .bool _ => true
  | _ => false

/-- Python `isinstance(v, bool)`. -/
def pyIsBool : PyVal → Bool
  | .bool _ => true
  | _ => false

/-- Python `isinstance(v, str)`. -/
def pyIsStr : PyVal → Bool
  | .str _ => true
  | _ => false

/-- Python `isinstance(v, list)`. -/
def pyIsList : PyVal → Bool
  | .list _ => true
  | _ => false

/-- Python `isinstance(v, dict)`. -/
def pyIsDict : PyVal → Bool
  | .dict _ => true
  | _ => false

/-- The numeric value of a Python `int`-like value (`True == 1`, `False == 0`). -/
def pyToInt : PyVal → Int
  | .int n => n
  | .bool b => if b then 1 else 0
  | _ => 0

/-- The raw configuration record, one field per key of the JSON file
(`ConfigDTO`). -/
structure RawConfig where
  seed_urls : PyVal
  total_articles : PyVal
  headers : PyVal
  encoding : PyVal
  timeout : PyVal
  should_verify_certificate : PyVal
  headless_mode : PyVal

/-- The exception classes raised by `Config._validate_config_content`. -/
inductive ConfigError where
  | incorrectSeedURL
  | incorrectNumberOfArticles
  | numberOfArticlesOutOfRange
  | incorrectHeaders
  | incorrectEncoding
  | incorrectTimeout
  | incorrectVerify
deriving DecidableEq, Repr

/-- One seed URL entry is acceptable: a string starting with
`http://` or `https://`. -/
def goodSeed (v : PyVal) : Bool :=
  match v with
  | .str s => pyStartsWith (chars "http://") s || pyStartsWith (chars "https://") s
  | _ => false

/-- `Config._validate_config_content`: the checks in source order, raising
the first applicable error. -/
def validate_config_content (c : RawConfig) : Except ConfigError Unit := do
  match c.seed_urls with
  | .list urls =>
    if ¬ urls.all goodSeed then throw .incorrectSeedURL
  | _ => throw .incorrectSeedURL
  if ¬ pyIsInt c.total_articles ∨ pyToInt c.total_articles ≤ 0 then
    throw .incorrectNumberOfArticles
  if pyToInt c.total_articles > 150 then
    throw .numberOfArticlesOutOfRange
  if ¬ pyIsDict c.headers then throw .incorrectHeaders
  if ¬ pyIsStr c.encoding then throw .incorrectEncoding
  if ¬ pyIsInt c.timeout ∨ ¬ (0 < pyToInt c.timeout ∧ pyToInt c.timeout < 60) then
    throw .incorrectTimeout
  if ¬ pyIsBool c.should_verify_certificate ∨ ¬ pyIsBool c.headless_mode then
    throw .incorrectVerify

/-- A configuration that is valid except possibly for `total_articles`. -/
def cfgWith (ta : PyVal) : RawConfig :=
  { seed_urls := .list [.str (chars "https://example.com/news")]
    total_articles := ta
    headers := .dict []
    encoding := .str (chars "utf-8")
    timeout := .int 10
    should_verify_certificate := .bool true
    headless_mode := .bool true }

/-- A valid configuration whose `timeout` field is the Python boolean `True`. -/
def cfgBoolTimeout : RawConfig :=
  { cfgWith (.int 5) with timeout := .bool true }

/-- Claim C3, counterexample: there is no single error kind with which
validation fails for all of `total_articles` in 0, -1, 151, "abc" —
151 raises `NumberOfArticlesOutOfRangeError` while the other three raise
`IncorrectNumberOfArticlesError`. -/
theorem C3_counterexample :
    ¬ ∃ e : ConfigError,
      validate_config_content (cfgWith (.int 0)) = .error e ∧
      validate_config_content (cfgWith (.int (-1))) = .error e ∧
      validate_config_content (cfgWith (.int 151)) = .error e ∧
      validate_config_content (cfgWith (.str (chars "abc"))) = .error e := by
  rintro ⟨e, h0, -, h151, -⟩
  have h1 : (Except.error ConfigError.incorrectNumberOfArticles : Except ConfigError Unit)
      = .error e := h0
  have h2 : (Except.error ConfigError.numberOfArticlesOutOfRange : Except ConfigError Unit)
      = .error e := h151
  rw [← h1] at h2
  injection h2 with h3
  exact ConfigError.noConfusion h3

/-- Claim C3, amended: validation of the article count fails with
`IncorrectNumberOfArticlesError` for `total_articles` in 0, -1, "abc",
fails with the distinct kind `NumberOfArticlesOutOfRangeError` for 151,
and succeeds for 1 and 150. -/
theorem C3_theorem :
    validate_config_content (cfgWith (.int 0)) = .error .incorrectNumberOfArticles ∧
    validate_config_content (cfgWith (.int (-1))) = .error .incorrectNumberOfArticles ∧
    validate_config_content (cfgWith (.str (chars "abc"))) = .error .incorrectNumberOfArticles ∧
    validate_config_content (cfgWith (.int 151)) = .error .numberOfArticlesOutOfRange ∧
    validate_config_content (cfgWith (.int 1)) = .ok () ∧
    validate_config_content (cfgWith (.int 150)) = .ok () :=
  ⟨rfl, rfl, rfl, rfl, rfl, rfl⟩

/-- Claim C9: Python booleans pass the integer checks of configuration
validation, because `bool` is a subclass of `int`: a configuration with
`total_articles = True` (and likewise `timeout = True`) validates
successfully, `True` counting as the integer 1. -/
theorem C9_theorem :
    pyIsInt (.bool true) = true ∧
    pyToInt (.bool true) = 1 ∧
    validate_config_content (cfgWith (.bool true)) = .ok () ∧
    validate_config_content cfgBoolTimeout = .ok () :=
  ⟨rfl, rfl, rfl, rfl⟩

/-! ## `HTMLParser.unify_date_format` — `datetime.strptime(date_str, "%d.%m.%Y")`

CPython's `_strptime` compiles the format into the regular expression
`(3[01]|[12]\d|0[1-9]|[1-9])\.(1[0-2]|0[1-9]|[1-9])\.(\d\d\d\d)`, matches
it against a prefix of the input, rejects the input when unconverted data
remains, and finally builds a `datetime`, which rejects day numbers that
do not exist in the given month and years below `MINYEAR = 1`.  Because a
two-digit numeric alternative and the one-digit alternative can never both
be followed by the literal dot (or, for the year, the end of input), the
regex match is deterministic and is modelled by a greedy parser. -/

/-- Numeric value of a decimal digit character. -/
def digitVal (c : Char) : Nat := c.toNat - '0'.toNat

/-- Character lies in an inclusive character-class range. -/
def between (lo hi c : Char) : Bool := lo.toNat ≤ c.toNat ∧ c.toNat ≤ hi.toNat

/-- Character is a decimal digit `0`-`9`. -/
def isDigit (c : Char) : Bool := between '0' '9' c

/-- Parse the `%d` directive: `3[01]|[12]\d|0[1-9]|[1-9]`. -/
def parseDay : Str → Option (Nat × Str)
  | a :: b :: r =>
    if a = '3' ∧ (b = '0' ∨ b = '1') then some (30 + digitVal b, r)
    else if (a = '1' ∨ a = '2') ∧ isDigit b then some (10 * digitVal a + digitVal b, r)
    else if a = '0' ∧ between '1' '9' b then some (digitVal b, r)
    else if between '1' '9' a then some (digitVal a, b :: r)
    else none
  | [a] => if between '1' '9' a then some (digitVal a, []) else none
  | [] => none

/-- Parse the `%m` directive: `1[0-2]|0[1-9]|[1-9]`. -/
def parseMonth : Str → Option (Nat × Str)
  | a :: b :: r =>
    if a = '1' ∧ (b = '0' ∨ b = '1' ∨ b = '2') then some (10 + digitVal b, r)
    else if a = '0' ∧ between '1' '9' b then some (digitVal b, r)
    else if between '1' '9' a then some (digitVal a, b :: r)
    else none
  | [a] => if between '1' '9' a then some (digitVal a, []) else none
  | [] => none

/-- Parse the `%Y` directive: exactly four decimal digits. -/
def parseYear : Str → Option (Nat × Str)
  | a :: b :: c :: d :: r =>
    if isDigit a ∧ isDigit b ∧ isDigit c ∧ isDigit d then
      some (1000 * digitVal a + 100 * digitVal b + 10 * digitVal c + digitVal d, r)
    else none
  | _ => none

/-- Consume one expected literal character. -/
def matchLit (c : Char) : Str → Option Str
  | x :: rest => if x = c then some rest else none
  | [] => none

/-- Gregorian leap-year rule used by `datetime`. -/
def isLeap (y : Nat) : Bool := y % 4 = 0 ∧ (y % 100 ≠ 0 ∨ y % 400 = 0)

/-- Number of days of a month, as validated by the `datetime` constructor. -/
def daysInMonth (y m : Nat) : Nat :=
  if m = 2 then (if isLeap y then 29 else 28)
  else if m = 4 ∨ m = 6 ∨ m = 9 ∨ m = 11 then 30
  else 31

/-- A calendar date as produced by `datetime.strptime` (year, month, day). -/
structure PyDate where
  year : Nat
  month : Nat
  day : Nat
deriving DecidableEq, Repr

/-- `HTMLParser.unify_date_format`: `datetime.strptime(date_str, "%d.%m.%Y")`.
`none` models the `ValueError` raised on a failed parse or an invalid
calendar date. -/
def unify_date_format (s : Str) : Option PyDate := do
  let (d, r1) ← parseDay s
  let r2 ← matchLit '.' r1
  let (m, r3) ← parseMonth r2
  let r4 ← matchLit '.' r3
  let (y, r5) ← parseYear r4
  if r5 = [] ∧ 1 ≤ y ∧ d ≤ daysInMonth y m then some ⟨y, m, d⟩ else none

lemma between_digitVal {c : Char} (h : between '1' '9' c = true) :
    1 ≤ digitVal c ∧ digitVal c ≤ 9 := by
  simp only [between, decide_eq_true_eq] at h
  have e1 : ('1').toNat = 49 := rfl
  have e9 : ('9').toNat = 57 := rfl
  have e0 : ('0').toNat = 48 := rfl
  unfold digitVal
  rw [e0]
  rw [e1, e9] at h
  omega

lemma parseMonth_bounds {s : Str} {m : Nat} {r : Str}
    (h : parseMonth s = some (m, r)) : 1 ≤ m ∧ m ≤ 12 := by
  match s with
  | [] => simp [parseMonth] at h
  | [a] =>
    simp only [parseMonth] at h
    split at h
    · injection h with h2
      injection h2 with h3 h4
      subst h3
      rename_i hc
      have := between_digitVal hc
      omega
    · exact absurd h (by simp)
  | a :: b :: r2 =>
    simp only [parseMonth] at h
    split at h
    · injection h with h2
      injection h2 with h3 h4
      subst h3
      rename_i hc
      obtain ⟨rfl, hb⟩ := hc
      rcases hb with rfl | rfl | rfl <;> simp [digitVal]
    · split at h
      · injection h with h2
        injection h2 with h3 h4
        subst h3
        rename_i hc
        obtain ⟨rfl, hb⟩ := hc
        have := between_digitVal hb
        omega
      · split at h
        · injection h with h2
          injection h2 with h3 h4
          subst h3
          rename_i hc
          have := between_digitVal hc
          omega
        · exact absurd h (by simp)

lemma parseDay_pos {s : Str} {d : Nat} {r : Str}
    (h : parseDay s = some (d, r)) : 1 ≤ d := by
  match s with
  | [] => simp [parseDay] at h
  | [a] =>
    simp only [parseDay] at h
    split at h
    · injection h with h2
      injection h2 with h3 h4
      subst h3
      rename_i hc
      have := between_digitVal hc
      omega
    · exact absurd h (by simp)
  | a :: b :: r2 =>
    simp only [parseDay] at h
    split at h
    · injection h with h2
      injection h2 with h3 h4
      omega
    · split at h
      · injection h with h2
        injection h2 with h3 h4
        subst h3
        rename_i hc
        obtain ⟨ha, hb⟩ := hc
        rcases ha with rfl | rfl <;> simp [digitVal] <;> omega
      · split at h
        · injection h with h2
          injection h2 with h3 h4
          subst h3
          rename_i hc
          obtain ⟨rfl, hb⟩ := hc
          have := between_digitVal hb
          omega
        · split at h
          · injection h with h2
            injection h2 with h3 h4
            subst h3
            rename_i hc
            have := between_digitVal hc
            omega
          · exact absurd h (by simp)

theorem C4_theorem :
    unify_date_format (chars "05.03.2021") = some ⟨2021, 3, 5⟩ ∧
    unify_date_format (chars "2021-03-05") = none ∧
    unify_date_format (chars "") = none ∧
    ∀ s dt, unify_date_format s = some dt →
      1 ≤ dt.year ∧ 1 ≤ dt.month ∧ dt.month ≤ 12 ∧
      1 ≤ dt.day ∧ dt.day ≤ daysInMonth dt.year dt.month := by
  refine ⟨rfl, rfl, rfl, ?_⟩
  intro s dt h
  unfold unify_date_format at h
  cases hd : parseDay s with
  | none => rw [hd] at h; simp at h
  | some p1 =>
    obtain ⟨d, r1⟩ := p1
    rw [hd] at h
    simp only [Option.bind_eq_bind, Option.some_bind] at h
    cases hl1 : matchLit '.' r1 with
    | none => rw [hl1] at h; simp at h
    | some r2 =>
      rw [hl1] at h
      simp only [Option.bind_eq_bind, Option.some_bind] at h
      cases hm : parseMonth r2 with
      | none => rw [hm] at h; simp at h
      | some p2 =>
        obtain ⟨m, r3⟩ := p2
        rw [hm] at h
        simp only [Option.bind_eq_bind, Option.some_bind] at h
        cases hl2 : matchLit '.' r3 with
        | none => rw [hl2] at h; simp at h
        | some r4 =>
          rw [hl2] at h
          simp only [Option.bind_eq_bind, Option.some_bind] at h
          cases hy : parseYear r4 with
          | none => rw [hy] at h; simp at h
          | some p3 =>
            obtain ⟨y, r5⟩ := p3
            rw [hy] at h
            simp only [Option.bind_eq_bind, Option.some_bind] at h
            split at h
            · injection h with h2
              subst h2
              rename_i hc
              obtain ⟨-, hy1, hdm⟩ := hc
              have hmb := parseMonth_bounds hm
              have hdp := parseDay_pos hd
              exact ⟨hy1, hmb.1, hmb.2, hdp, hdm⟩
            · exact absurd h (by simp)

theorem C4_witness :
    1 ≤ (⟨2020, 2, 29⟩ : PyDate).year ∧ 1 ≤ (⟨2020, 2, 29⟩ : PyDate).month ∧
    (⟨2020, 2, 29⟩ : PyDate).month ≤ 12 ∧ 1 ≤ (⟨2020, 2, 29⟩ : PyDate).day ∧
    (⟨2020, 2, 29⟩ : PyDate).day ≤
      daysInMonth (⟨2020, 2, 29⟩ : PyDate).year (⟨2020, 2, 29⟩ : PyDate).month :=
  C4_theorem.2.2.2 (chars "29.02.2020") ⟨2020, 2, 29⟩ rfl

theorem C4_counterexample :
    unify_date_format (chars "5.3.2021") = some ⟨2021, 3, 5⟩ ∧
    ¬ unify_date_format (chars "5.3.2021") = none :=
  ⟨rfl, by decide⟩

/-! ## The parsed markup tree (BeautifulSoup model)

A parsed page is a tree of element tags and text nodes.  Attribute values
are either strings or lists of strings (lxml parses multi-valued
attributes such as `class` into lists).  `find` / `find_all` search the
strict descendants of a node in document (pre-)order; a string filter on a
multi-valued attribute matches any of its items or the space-joined whole
value, an attribute filter on a plain string attribute is an exact match. -/

/-- A BeautifulSoup attribute value. -/
inductive AttrVal where
  | str (s : Str)
  | list (xs : List Str)
deriving DecidableEq, Repr

/-- A node of the parsed markup tree. -/
inductive Node where
  | tag (name : Str) (attrs : List (Str × AttrVal)) (children : List Node)
  | text (s : Str)

/-- Look up an attribute of a node (`Tag.get`). -/
def getAttr (k : Str) : Node → Option AttrVal
  | .tag _ attrs _ => attrs.lookup k
  | .text _ => none

/-- A string filter against an attribute value (BeautifulSoup `_matches`). -/
def attrValMatches (target : Str) : AttrVal → Bool
  | .str s => s = target
  | .list xs => xs.contains target || joinSpace xs = target
where
  /-- Space-joined multi-valued attribute, as in `class="a b"`. -/
  joinSpace : List Str → Str
    | [] => []
    | x :: rest => x ++ rest.flatMap (fun y => ' ' :: y)

/-- Tag-name plus attribute filter of `find` / `find_all`. -/
def tagMatches (name : Str) (attrs : List (Str × Str)) (n : Node) : Bool :=
  match n with
  | .text _ => false
  | .tag nm as _ =>
    nm = name &&
    attrs.all (fun kv =>
      match as.lookup kv.1 with
      | some av => attrValMatches kv.2 av
      | none => false)

/-- Predicate of `find('a', href=True)`: an anchor carrying an `href`. -/
def isAnchorWithHref (n : Node) : Bool :=
  match n with
  | .text _ => false
  | .tag nm as _ => nm = chars "a" && (as.lookup (chars "href")).isSome

mutual
/-- All strict descendants of a node satisfying `p`, in document order
(`find_all`). -/
def findAllNode (p : Node → Bool) : Node → List Node
  | .text _ => []
  | .tag _ _ cs => findAllList p cs

/-- All nodes of a forest (the nodes themselves and their descendants)
satisfying `p`, in document order. -/
def findAllList (p : Node → Bool) : List Node → List Node
  | [] => []
  | c :: rest => (if p c then [c] else []) ++ findAllNode p c ++ findAllList p rest
end

/-- BeautifulSoup `find`: the first matching strict descendant. -/
def findNode (p : Node → Bool) (n : Node) : Option Node :=
  (findAllNode p n).head?

/-- Whether a node is a text node. -/
def isText : Node → Bool
  | .text _ => true
  | .tag _ _ _ => false

/-- The string of a text node. -/
def textOf : Node → Str
  | .text s => s
  | .tag _ _ _ => []

/-- `get_text(strip=True)`: concatenation of the stripped text descendants,
dropping those that strip to the empty string. -/
def getTextStrip (n : Node) : Str :=
  (((findAllNode isText n).map (fun t => pyStrip (textOf t))).filter
    (fun s => ¬ s = [])).flatten

/-- Markup rendering of an attribute value. -/
def renderAttrVal : AttrVal → Str
  | .str s => s
  | .list xs => attrValMatches.joinSpace xs

/-- Markup rendering of an attribute list. -/
def renderAttrs (as : List (Str × AttrVal)) : Str :=
  as.flatMap (fun kv =>
    ' ' :: kv.1 ++ ('=' :: '"' :: renderAttrVal kv.2 ++ ['"']))

mutual
/-- Markup rendering of one node, as `decode_contents` renders children. -/
def renderNode : Node → Str
  | .text s => s
  | .tag nm as cs =>
    '<' :: nm ++ renderAttrs as ++ ['>'] ++ renderList cs ++ ('<' :: '/' :: nm ++ ['>'])

/-- Markup rendering of a forest of nodes. -/
def renderList : List Node → Str
  | [] => []
  | c :: rest => renderNode c ++ renderList rest
end

/-- Tag `decode_contents()`: the inner markup of a node. -/
def decodeContents : Node → Str
  | .text s => s
  | .tag _ _ cs => renderList cs

/-! ## `Crawler._extract_url` and `Crawler.find_articles` -/

/-- A Python exception escaping the crawler loop (here: the `IndexError`
of `raw_href[0]` on an empty list). -/
inductive PyErr where
  | indexError
deriving DecidableEq

/-- URL normalization applied to a string href, as in the tail of
`Crawler._extract_url` after the `isinstance` guards. -/
def extractFromStr (href : Str) (seeds : List Str) : Except PyErr Str :=
  if href = [] then .ok []
  else if pyStartsWith (chars "http://") href ∨ pyStartsWith (chars "https://") href then
    .ok href
  else
    match seeds with
    | [] => .ok []
    | base :: _ =>
      match pySplit '/' base with
      | p0 :: _ :: p2 :: _ => .ok (p0 ++ ('/' :: '/' :: p2) ++ href)
      | _ => .error .indexError

/-- `Crawler._extract_url`: read the anchor's `href`, reduce a list value
to its first element (raising `IndexError` on an empty list), drop
missing/empty values, and normalize. -/
def extract_url (anchor : Node) (seeds : List Str) : Except PyErr Str :=
  match getAttr (chars "href") anchor with
  | none => .ok []
  | some (.list []) => .error .indexError
  | some (.list (h :: _)) => extractFromStr h seeds
  | some (.str h) => extractFromStr h seeds

/-- The outcome of one `make_request` call for a seed URL: a transport
failure raises `requests.RequestException`; otherwise a response with its
`ok` flag and (already parsed) document arrives. -/
inductive FetchResult where
  | transportError
  | response (ok : Bool) (page : Node)

/-- The observable state of a `Crawler.find_articles` run: the
accumulated `self.urls`, the seed URLs actually fetched (in order), and
whether the run finished normally (`ok = false` when an exception
propagated out of the loop). -/
structure CrawlResult where
  urls : List Str
  fetched : List Str
  ok : Bool
deriving DecidableEq

/-- The inner loop of `find_articles` over `soup.find_all('h3')`:
break once `len(self.urls) >= num`, else locate the first anchor with an
href, extract, and append unseen non-empty URLs.  Returns the urls list
together with `true` when an exception escaped. -/
def processHeaders (num : Nat) (seeds : List Str) :
    List Node → List Str → List Str × Bool
  | [], urls => (urls, false)
  | h :: hs, urls =>
    if num ≤ urls.length then (urls, false)
    else
      match findNode isAnchorWithHref h with
      | none => processHeaders num seeds hs urls
      | some aTag =>
        match extract_url aTag seeds with
        | .error _ => (urls, true)
        | .ok u =>
          if ¬ u = [] ∧ u ∉ urls then processHeaders num seeds hs (urls ++ [u])
          else processHeaders num seeds hs urls

/-- The outer loop of `find_articles` over the seed URLs. -/
def findArticlesAux (num : Nat) (seeds : List Str) (fetch : Str → FetchResult) :
    List Str → List Str → List Str → CrawlResult
  | [], urls, fetched => ⟨urls, fetched, true⟩
  | s :: rest, urls, fetched =>
    match fetch s with
    | .transportError => ⟨urls, fetched ++ [s], false⟩
    | .response ok page =>
      if ¬ ok then findArticlesAux num seeds fetch rest urls (fetched ++ [s])
      else
        match processHeaders num seeds (findAllNode (tagMatches (chars "h3") []) page) urls with
        | (u2, true) => ⟨u2, fetched ++ [s], false⟩
        | (u2, false) => findArticlesAux num seeds fetch rest u2 (fetched ++ [s])

/-- `Crawler.find_articles`, starting from the freshly constructed crawler
(`self.urls = []`). -/
def find_articles (num : Nat) (seeds : List Str) (fetch : Str → FetchResult) :
    CrawlResult :=
  findArticlesAux num seeds fetch seeds [] []

lemma aux_step_transport (num : Nat) (seeds : List Str) (fetch : Str → FetchResult)
    (s : Str) (rest urls fetched : List Str)
    (hfs : fetch s = .transportError) :
    findArticlesAux num seeds fetch (s :: rest) urls fetched =
      ⟨urls, fetched ++ [s], false⟩ := by
  simp [findArticlesAux, hfs]

lemma aux_step_notOk (num : Nat) (seeds : List Str) (fetch : Str → FetchResult)
    (s : Str) (rest urls fetched : List Str) (page : Node)
    (hfs : fetch s = .response false page) :
    findArticlesAux num seeds fetch (s :: rest) urls fetched =
      findArticlesAux num seeds fetch rest urls (fetched ++ [s]) := by
  simp [findArticlesAux, hfs]

lemma aux_step_ok (num : Nat) (seeds : List Str) (fetch : Str → FetchResult)
    (s : Str) (rest urls fetched : List Str) (page : Node)
    (hfs : fetch s = .response true page) :
    findArticlesAux num seeds fetch (s :: rest) urls fetched =
      (match processHeaders num seeds (findAllNode (tagMatches (chars "h3") []) page) urls with
       | (u2, true) => ⟨u2, fetched ++ [s], false⟩
       | (u2, false) => findArticlesAux num seeds fetch rest u2 (fetched ++ [s])) := by
  simp [findArticlesAux, hfs]

lemma processHeaders_length (num : Nat) (seeds : List Str) :
    ∀ (hs : List Node) (urls : List Str), urls.length ≤ num →
      ((processHeaders num seeds hs urls).1).length ≤ num := by
  intro hs
  induction hs with
  | nil => intro urls h; simpa [processHeaders] using h
  | cons h hs ih =>
    intro urls hu
    simp only [processHeaders]
    split
    · simpa using hu
    · rename_i hcap
      cases hfn : findNode isAnchorWithHref h with
      | none => simp only [hfn]; exact ih urls hu
      | some aTag =>
        simp only [hfn]
        cases hE : extract_url aTag seeds with
        | error e => simp only [hE]; simpa using hu
        | ok u =>
          simp only [hE]
          split
          · exact ih (urls ++ [u]) (by simp; omega)
          · exact ih urls hu

lemma findArticlesAux_length (num : Nat) (seeds : List Str) (fetch : Str → FetchResult) :
    ∀ (pending : List Str) (urls fetched : List Str), urls.length ≤ num →
      (findArticlesAux num seeds fetch pending urls fetched).urls.length ≤ num := by
  intro pending
  induction pending with
  | nil => intro urls fetched h; simpa [findArticlesAux] using h
  | cons s rest ih =>
    intro urls fetched hu
    cases hfs : fetch s with
    | transportError => rw [aux_step_transport num seeds fetch s rest urls fetched hfs]; simpa using hu
    | response ok page =>
      cases ok with
      | false =>
        rw [aux_step_notOk num seeds fetch s rest urls fetched page hfs]
        exact ih urls (fetched ++ [s]) hu
      | true =>
        rw [aux_step_ok num seeds fetch s rest urls fetched page hfs]
        have hp := processHeaders_length num seeds
          (findAllNode (tagMatches (chars "h3") []) page) urls hu
        cases hph : processHeaders num seeds (findAllNode (tagMatches (chars "h3") []) page) urls with
        | mk u2 raised =>
          rw [hph] at hp
          cases raised
          · exact ih u2 (fetched ++ [s]) (by simpa using hp)
          · simpa using hp

lemma findArticlesAux_fetched (num : Nat) (seeds : List Str) (fetch : Str → FetchResult) :
    ∀ (pending : List Str) (urls fetched : List Str),
      (findArticlesAux num seeds fetch pending urls fetched).ok = true →
      (findArticlesAux num seeds fetch pending urls fetched).fetched = fetched ++ pending := by
  intro pending
  induction pending with
  | nil => intro urls fetched _; simp [findArticlesAux]
  | cons s rest ih =>
    intro urls fetched hok
    cases hfs : fetch s with
    | transportError =>
      rw [aux_step_transport num seeds fetch s rest urls fetched hfs] at hok
      simp at hok
    | response ok page =>
      cases ok with
      | false =>
        rw [aux_step_notOk num seeds fetch s rest urls fetched page hfs] at hok ⊢
        rw [ih urls (fetched ++ [s]) hok]
        simp
      | true =>
        rw [aux_step_ok num seeds fetch s rest urls fetched page hfs] at hok ⊢
        cases hph : processHeaders num seeds (findAllNode (tagMatches (chars "h3") []) page) urls with
        | mk u2 raised =>
          rw [hph] at hok
          cases raised
          · simp only at hok ⊢
            rw [ih u2 (fetched ++ [s]) hok]
            simp
          · simp at hok

/-- Example fixture: a first valid seed URL. -/
def seedA : Str := chars "https://example.com/page"

/-- Example fixture: a second, distinct valid seed URL. -/
def seedB : Str := chars "https://example.com/sport"

/-- Example fixture: a listing page with one `h3` heading holding one
relative article link. -/
def pageA : Node :=
  Node.tag (chars "html") []
    [Node.tag (chars "h3") []
      [Node.tag (chars "a") [(chars "href", .str (chars "/news/123"))] [Node.text (chars "x")]]]

/-- Example fixture: fetching the first seed fails at transport level,
fetching anything else succeeds. -/
def fetchFirstDown : Str → FetchResult :=
  fun s => if s = seedA then .transportError else .response true pageA

/-- Example fixture: every seed responds successfully with `pageA`. -/
def fetchAllOk : Str → FetchResult := fun _ => .response true pageA

/-- Claim C1, counterexample: with cap 1 and two seeds, the cap is reached
while processing the first seed (one URL is collected), yet the second
seed is still fetched — the outer seed loop of `find_articles` has no cap
check, so discovery does not terminate when the cap is reached. -/
theorem C1_counterexample :
    (find_articles 1 [seedA, seedB] fetchAllOk).urls.length = 1 ∧
    seedB ∈ (find_articles 1 [seedA, seedB] fetchAllOk).fetched ∧
    ¬ seedB = seedA := by
  refine ⟨rfl, ?_, by decide⟩
  have h : (find_articles 1 [seedA, seedB] fetchAllOk).fetched = [seedA, seedB] := rfl
  rw [h]
  exact List.mem_cons_of_mem _ (List.mem_cons_self _ _)

/-- Claim C1, amended: reaching the cap stops URL accumulation but not
seed fetching: on every run that finishes without an exception, every
configured seed is fetched (in order), while the accumulated URL list
never exceeds `maxArticles`. -/
theorem C1_theorem (num : Nat) (seeds : List Str) (fetch : Str → FetchResult)
    (hok : (find_articles num seeds fetch).ok = true) :
    (find_articles num seeds fetch).fetched = seeds ∧
    (find_articles num seeds fetch).urls.length ≤ num := by
  constructor
  · simpa using findArticlesAux_fetched num seeds fetch seeds [] [] hok
  · exact findArticlesAux_length num seeds fetch seeds [] [] (by simp)

/-- Witness for `C1_theorem` at a concrete capped two-seed run. -/
theorem C1_witness :
    (find_articles 1 [seedA, seedB] fetchAllOk).fetched = [seedA, seedB] ∧
    (find_articles 1 [seedA, seedB] fetchAllOk).urls.length ≤ 1 :=
  C1_theorem 1 [seedA, seedB] fetchAllOk rfl

/-- Claim C2, counterexample: when fetching the first of two seeds raises
a transport-level failure, discovery does not skip that seed and
continue — it aborts with the exception: the second seed is never
fetched and no URLs are collected. -/
theorem C2_counterexample :
    (find_articles 5 [seedA, seedB] fetchFirstDown).ok = false ∧
    (find_articles 5 [seedA, seedB] fetchFirstDown).fetched = [seedA] ∧
    ¬ seedB ∈ (find_articles 5 [seedA, seedB] fetchFirstDown).fetched ∧
    (find_articles 5 [seedA, seedB] fetchFirstDown).urls = [] := by
  refine ⟨rfl, rfl, ?_, rfl⟩
  have h : (find_articles 5 [seedA, seedB] fetchFirstDown).fetched = [seedA] := rfl
  rw [h]
  decide

/-- Claim C2, amended: a transport-level failure on a seed propagates out
of `find_articles` and aborts discovery with the accumulated URLs left in
the crawler state and no later seed fetched; only a non-success HTTP
response makes the loop skip that one seed and continue. -/
theorem C2_theorem (num : Nat) (seeds : List Str) (fetch : Str → FetchResult)
    (s : Str) (rest urls fetched : List Str) (page : Node) :
    (fetch s = .transportError →
      findArticlesAux num seeds fetch (s :: rest) urls fetched =
        ⟨urls, fetched ++ [s], false⟩) ∧
    (fetch s = .response false page →
      findArticlesAux num seeds fetch (s :: rest) urls fetched =
        findArticlesAux num seeds fetch rest urls (fetched ++ [s])) :=
  ⟨aux_step_transport num seeds fetch s rest urls fetched,
   aux_step_notOk num seeds fetch s rest urls fetched page⟩

/-- Witness for `C2_theorem`: the concrete aborted run of
`C2_counterexample`, one transport failure at the head seed. -/
theorem C2_witness :
    findArticlesAux 5 [seedA, seedB] fetchFirstDown [seedA, seedB] [] [] =
      ⟨[], [] ++ [seedA], false⟩ :=
  (C2_theorem 5 [seedA, seedB] fetchFirstDown seedA [seedB] [] [] pageA).1 rfl

/-! ## First-discovered order (claim C6): a bounded deduplicating fold -/

/-- Specification-side accumulator: scan candidate URLs in encounter
order, appending each non-empty unseen URL while the accumulator is below
the cap. -/
def boundedDedup (num : Nat) : List Str → List Str → List Str
  | acc, [] => acc
  | acc, u :: rest =>
    if acc.length < num ∧ ¬ u = [] ∧ u ∉ acc then boundedDedup num (acc ++ [u]) rest
    else boundedDedup num acc rest

/-- The URL a heading contributes: its first href-carrying anchor's
extracted URL, when the anchor exists and extraction does not raise. -/
def headerCandidate (seeds : List Str) (h : Node) : Option Str :=
  match findNode isAnchorWithHref h with
  | none => none
  | some aTag =>
    match extract_url aTag seeds with
    | .ok u => some u
    | .error _ => none

/-- All candidate URLs of one listing page, in document order. -/
def pageCandidates (seeds : List Str) (page : Node) : List Str :=
  (findAllNode (tagMatches (chars "h3") []) page).filterMap (headerCandidate seeds)

/-- All candidate URLs of a crawl, in encounter order: seeds in
configuration order, only successful (`ok`) responses contribute. -/
def candidateStream (seeds : List Str) (fetch : Str → FetchResult) : List Str :=
  seeds.flatMap (fun s =>
    match fetch s with
    | .response true page => pageCandidates seeds page
    | _ => [])

lemma boundedDedup_of_full (num : Nat) :
    ∀ (l : List Str) (acc : List Str), num ≤ acc.length →
      boundedDedup num acc l = acc := by
  intro l
  induction l with
  | nil => intro acc _; rfl
  | cons u rest ih =>
    intro acc hfull
    simp only [boundedDedup]
    rw [if_neg (by intro hc; omega)]
    exact ih acc hfull

lemma boundedDedup_append (num : Nat) :
    ∀ (l1 l2 : List Str) (acc : List Str),
      boundedDedup num acc (l1 ++ l2) = boundedDedup num (boundedDedup num acc l1) l2 := by
  intro l1
  induction l1 with
  | nil => intro l2 acc; rfl
  | cons u rest ih =>
    intro l2 acc
    simp only [List.cons_append, boundedDedup]
    split
    · exact ih l2 (acc ++ [u])
    · exact ih l2 acc

lemma processHeaders_dedup (num : Nat) (seeds : List Str) :
    ∀ (hs : List Node) (urls u2 : List Str),
      processHeaders num seeds hs urls = (u2, false) →
      u2 = boundedDedup num urls (hs.filterMap (headerCandidate seeds)) := by
  intro hs
  induction hs with
  | nil =>
    intro urls u2 h
    simp only [processHeaders] at h
    injection h with h1 h2
    rw [← h1]
    rfl
  | cons h hs ih =>
    intro urls u2 hp
    simp only [processHeaders] at hp
    split at hp
    · rename_i hcap
      injection hp with h1 h2
      rw [boundedDedup_of_full num _ urls hcap, h1]
    · rename_i hcap
      simp only [List.filterMap_cons]
      cases hfn : findNode isAnchorWithHref h with
      | none =>
        rw [hfn] at hp
        simp only [headerCandidate, hfn]
        exact ih urls u2 hp
      | some aTag =>
        rw [hfn] at hp
        dsimp only at hp
        cases hE : extract_url aTag seeds with
        | error e =>
          rw [hE] at hp
          injection hp with h1 h2
          exact absurd h2.symm (by simp)
        | ok u =>
          rw [hE] at hp
          dsimp only at hp
          simp only [headerCandidate, hfn, hE]
          simp only [boundedDedup]
          split at hp
          · rename_i hcond
            rw [if_pos ⟨by omega, hcond⟩]
            exact ih (urls ++ [u]) u2 hp
          · rename_i hcond
            rw [if_neg (by intro hc; exact hcond ⟨hc.2.1, hc.2.2⟩)]
            exact ih urls u2 hp

lemma findArticlesAux_dedup (num : Nat) (seeds : List Str) (fetch : Str → FetchResult) :
    ∀ (pending : List Str) (urls fetched : List Str),
      (findArticlesAux num seeds fetch pending urls fetched).ok = true →
      (findArticlesAux num seeds fetch pending urls fetched).urls =
        boundedDedup num urls (pending.flatMap (fun s =>
          match fetch s with
          | .response true page => pageCandidates seeds page
          | _ => [])) := by
  intro pending
  induction pending with
  | nil => intro urls fetched _; rfl
  | cons s rest ih =>
    intro urls fetched hok
    have hstream : (s :: rest).flatMap (fun t =>
        match fetch t with
        | .response true page => pageCandidates seeds page
        | _ => []) =
      (match fetch s with
        | .response true page => pageCandidates seeds page
        | _ => []) ++ rest.flatMap (fun t =>
        match fetch t with
        | .response true page => pageCandidates seeds page
        | _ => []) := rfl
    rw [hstream]
    cases hfs : fetch s with
    | transportError =>
      rw [aux_step_transport num seeds fetch s rest urls fetched hfs] at hok
      simp at hok
    | response ok page =>
      cases ok with
      | false =>
        rw [aux_step_notOk num seeds fetch s rest urls fetched page hfs] at hok ⊢
        exact ih urls (fetched ++ [s]) hok
      | true =>
        rw [aux_step_ok num seeds fetch s rest urls fetched page hfs] at hok ⊢
        dsimp only
        cases hph : processHeaders num seeds (findAllNode (tagMatches (chars "h3") []) page) urls with
        | mk u2 raised =>
          rw [hph] at hok
          cases raised
          · rw [boundedDedup_append]
            have hu2 := processHeaders_dedup num seeds _ urls u2 hph
            simp only [pageCandidates]
            rw [← hu2]
            exact ih u2 (fetched ++ [s]) (by simpa using hok)
          · simp at hok

lemma processHeaders_nodup (num : Nat) (seeds : List Str) :
    ∀ (hs : List Node) (urls : List Str), urls.Nodup →
      ((processHeaders num seeds hs urls).1).Nodup := by
  intro hs
  induction hs with
  | nil => intro urls h; simpa [processHeaders] using h
  | cons h hs ih =>
    intro urls hu
    simp only [processHeaders]
    split
    · simpa using hu
    · cases hfn : findNode isAnchorWithHref h with
      | none => simp only [hfn]; exact ih urls hu
      | some aTag =>
        simp only [hfn]
        cases hE : extract_url aTag seeds with
        | error e => simp only [hE]; simpa using hu
        | ok u =>
          simp only [hE]
          split
          · rename_i hcond
            refine ih (urls ++ [u]) ?_
            rw [List.nodup_append]
            refine ⟨hu, List.nodup_singleton u, ?_⟩
            intro x hx hxu
            rw [List.mem_singleton] at hxu
            exact hcond.2 (hxu ▸ hx)
          · exact ih urls hu

lemma findArticlesAux_nodup (num : Nat) (seeds : List Str) (fetch : Str → FetchResult) :
    ∀ (pending : List Str) (urls fetched : List Str), urls.Nodup →
      (findArticlesAux num seeds fetch pending urls fetched).urls.Nodup := by
  intro pending
  induction pending with
  | nil => intro urls fetched h; simpa [findArticlesAux] using h
  | cons s rest ih =>
    intro urls fetched hu
    cases hfs : fetch s with
    | transportError =>
      rw [aux_step_transport num seeds fetch s rest urls fetched hfs]
      simpa using hu
    | response ok page =>
      cases ok with
      | false =>
        rw [aux_step_notOk num seeds fetch s rest urls fetched page hfs]
        exact ih urls (fetched ++ [s]) hu
      | true =>
        rw [aux_step_ok num seeds fetch s rest urls fetched page hfs]
        have hp := processHeaders_nodup num seeds
          (findAllNode (tagMatches (chars "h3") []) page) urls hu
        cases hph : processHeaders num seeds (findAllNode (tagMatches (chars "h3") []) page) urls with
        | mk u2 raised =>
          rw [hph] at hp
          cases raised
          · exact ih u2 (fetched ++ [s]) (by simpa using hp)
          · simpa using hp

/-- Claim C6: for every configuration and fetch behavior, the URL list
produced by `find_articles` has at most `maxArticles` entries and no
duplicate string — even when the run is aborted by an exception — and,
on every run that finishes normally, it equals the bounded first-seen
deduplication of the candidate URL stream in encounter order
(first-discovered order, dedup by exact string equality only). -/
theorem C6_theorem (num : Nat) (seeds : List Str) (fetch : Str → FetchResult) :
    (find_articles num seeds fetch).urls.length ≤ num ∧
    (find_articles num seeds fetch).urls.Nodup ∧
    ((find_articles num seeds fetch).ok = true →
      (find_articles num seeds fetch).urls =
        boundedDedup num [] (candidateStream seeds fetch)) :=
  ⟨findArticlesAux_length num seeds fetch seeds [] [] (by simp),
   findArticlesAux_nodup num seeds fetch seeds [] [] (by simp),
   fun hok => findArticlesAux_dedup num seeds fetch seeds [] [] hok⟩

/-- Witness for `C6_theorem` at the concrete capped two-seed run. -/
theorem C6_witness :
    (find_articles 1 [seedA, seedB] fetchAllOk).urls.length ≤ 1 ∧
    (find_articles 1 [seedA, seedB] fetchAllOk).urls.Nodup ∧
    (find_articles 1 [seedA, seedB] fetchAllOk).urls =
      boundedDedup 1 [] (candidateStream [seedA, seedB] fetchAllOk) :=
  ⟨(C6_theorem 1 [seedA, seedB] fetchAllOk).1,
   (C6_theorem 1 [seedA, seedB] fetchAllOk).2.1,
   (C6_theorem 1 [seedA, seedB] fetchAllOk).2.2 rfl⟩

/-! ## URL normalization lemmas (claims C5 and C10) -/

lemma pySplit_ne_nil (sep : Char) : ∀ s : Str, ¬ pySplit sep s = [] := by
  intro s
  cases s with
  | nil => simp [pySplit]
  | cons c rest =>
    simp only [pySplit]
    split
    · simp
    · cases pySplit sep rest <;> simp

lemma pySplit_no_sep (sep : Char) : ∀ s : Str, sep ∉ s → pySplit sep s = [s] := by
  intro s
  induction s with
  | nil => intro _; rfl
  | cons c rest ih =>
    intro hmem
    simp only [pySplit]
    rw [if_neg (by intro hc; exact hmem (hc ▸ List.mem_cons_self c rest))]
    rw [ih (fun hr => hmem (List.mem_cons_of_mem c hr))]

lemma pySplit_sep_append (sep : Char) :
    ∀ (p s : Str), sep ∉ p → pySplit sep (p ++ sep :: s) = p :: pySplit sep s := by
  intro p
  induction p with
  | nil => intro s _; simp [pySplit]
  | cons c p2 ih =>
    intro s hmem
    simp only [List.cons_append, pySplit, List.append_eq]
    rw [if_neg (by intro hc; exact hmem (hc ▸ List.mem_cons_self c p2))]
    rw [ih s (fun hr => hmem (List.mem_cons_of_mem c hr))]

lemma pySplit_http_shape (base : Str)
    (hb : pyStartsWith (chars "http://") base = true ∨
          pyStartsWith (chars "https://") base = true) :
    ∃ p0 p2 rest2, pySplit '/' base = p0 :: [] :: p2 :: rest2 := by
  have hsplit : ∀ (pre t : Str), '/' ∉ pre → base = pre ++ '/' :: '/' :: t →
      ∃ p0 p2 rest2, pySplit '/' base = p0 :: [] :: p2 :: rest2 := by
    intro pre t hpre hbase
    rw [hbase, pySplit_sep_append '/' pre ('/' :: t) hpre]
    have h2 : pySplit '/' ('/' :: t) = [] :: pySplit '/' t := by
      simp [pySplit]
    rw [h2]
    cases ht : pySplit '/' t with
    | nil => exact absurd ht (pySplit_ne_nil '/' t)
    | cons x xs => exact ⟨pre, x, xs, rfl⟩
  rcases hb with hb | hb
  · rw [pyStartsWith, List.isPrefixOf_iff_prefix] at hb
    obtain ⟨t, ht⟩ := hb
    exact hsplit (chars "http:") t (by decide) (by rw [← ht]; rfl)
  · rw [pyStartsWith, List.isPrefixOf_iff_prefix] at hb
    obtain ⟨t, ht⟩ := hb
    exact hsplit (chars "https:") t (by decide) (by rw [← ht]; rfl)

lemma pySplit_sep_cons (sep : Char) (s : Str) :
    pySplit sep (sep :: s) = [] :: pySplit sep s := by
  simp [pySplit]

lemma extractFromStr_rel (href base : Str) (rest : List Str)
    (hne : ¬ href = [])
    (habs : ¬ (pyStartsWith (chars "http://") href = true ∨
               pyStartsWith (chars "https://") href = true))
    (p0 p2 : Str) (rest2 : List Str)
    (hsp : pySplit '/' base = p0 :: [] :: p2 :: rest2) :
    extractFromStr href (base :: rest) = .ok (p0 ++ ('/' :: '/' :: p2) ++ href) := by
  simp only [extractFromStr]
  rw [if_neg hne, if_neg habs]
  rw [hsp]

lemma extractFromStr_total (href : Str) (seeds : List Str)
    (hs : ∀ s ∈ seeds, pyStartsWith (chars "http://") s = true ∨
          pyStartsWith (chars "https://") s = true) :
    ∃ u, extractFromStr href seeds = .ok u := by
  by_cases he : href = []
  · exact ⟨[], by simp only [extractFromStr]; rw [if_pos he]⟩
  · by_cases habs : pyStartsWith (chars "http://") href = true ∨
        pyStartsWith (chars "https://") href = true
    · exact ⟨href, by simp only [extractFromStr]; rw [if_neg he, if_pos habs]⟩
    · cases seeds with
      | nil => exact ⟨[], by simp only [extractFromStr]; rw [if_neg he, if_neg habs]⟩
      | cons base rest =>
        obtain ⟨p0, p2, rest2, hsp⟩ :=
          pySplit_http_shape base (hs base (List.mem_cons_self _ _))
        exact ⟨p0 ++ ('/' :: '/' :: p2) ++ href,
          extractFromStr_rel href base rest he habs p0 p2 rest2 hsp⟩

/-- Claim C5: an href that already carries an absolute `http(s)` scheme is
returned unchanged; any other non-empty href is appended to the
scheme-and-host prefix of the first configured seed (the segment before
the first `/`, the two slashes, and the host segment between the second
and third `/`); with an empty seed list the result is the empty string;
and the spec's concrete example holds: href `/news/123` with first seed
`https://example.com/page` normalizes to `https://example.com/news/123`. -/
theorem C5_theorem :
    (∀ (href : Str) (seeds : List Str),
      pyStartsWith (chars "http://") href = true ∨
        pyStartsWith (chars "https://") href = true →
      extractFromStr href seeds = .ok href) ∧
    (∀ (href p h r : Str) (rest : List Str),
      ¬ href = [] →
      ¬ (pyStartsWith (chars "http://") href = true ∨
         pyStartsWith (chars "https://") href = true) →
      '/' ∉ p → '/' ∉ h →
      (r = [] ∨ ∃ r2, r = '/' :: r2) →
      extractFromStr href ((p ++ '/' :: '/' :: (h ++ r)) :: rest) =
        .ok (p ++ ('/' :: '/' :: h) ++ href)) ∧
    (∀ href : Str, ¬ href = [] →
      ¬ (pyStartsWith (chars "http://") href = true ∨
         pyStartsWith (chars "https://") href = true) →
      extractFromStr href [] = .ok []) ∧
    extract_url (Node.tag (chars "a") [(chars "href", .str (chars "/news/123"))] [])
        [chars "https://example.com/page"] =
      .ok (chars "https://example.com/news/123") := by
  refine ⟨?_, ?_, ?_, rfl⟩
  · intro href seeds habs
    have hne : ¬ href = [] := by
      intro he
      rcases habs with h | h <;>
      · rw [pyStartsWith, List.isPrefixOf_iff_prefix] at h
        obtain ⟨t, ht⟩ := h
        rw [he] at ht
        rw [List.append_eq_nil] at ht
        exact absurd ht.1 (by decide)
    simp only [extractFromStr]
    rw [if_neg hne, if_pos habs]
  · intro href p h r rest hne habs hp hh hr
    rcases hr with rfl | ⟨r2, rfl⟩
    · have hsp : pySplit '/' (p ++ '/' :: '/' :: (h ++ [])) = p :: [] :: h :: [] := by
        rw [List.append_nil, pySplit_sep_append '/' p ('/' :: h) hp, pySplit_sep_cons,
            pySplit_no_sep '/' h hh]
      rw [extractFromStr_rel href _ rest hne habs p h [] hsp]
    · have hsp : pySplit '/' (p ++ '/' :: '/' :: (h ++ '/' :: r2)) =
          p :: [] :: h :: pySplit '/' r2 := by
        rw [pySplit_sep_append '/' p ('/' :: (h ++ '/' :: r2)) hp, pySplit_sep_cons,
            pySplit_sep_append '/' h r2 hh]
      rw [extractFromStr_rel href _ rest hne habs p h (pySplit '/' r2) hsp]
  · intro href hne habs
    simp only [extractFromStr]
    rw [if_neg hne, if_neg habs]

/-- Witness for `C5_theorem`: normalization of the relative href
`/news/123` against the decomposed first seed `https://example.com/page`. -/
theorem C5_witness :
    extractFromStr (chars "/news/123")
        ((chars "https:" ++ '/' :: '/' :: (chars "example.com" ++ chars "/page")) :: []) =
      .ok (chars "https:" ++ ('/' :: '/' :: chars "example.com") ++ chars "/news/123") :=
  C5_theorem.2.1 (chars "/news/123") (chars "https:") (chars "example.com")
    (chars "/page") [] (by decide) (by decide) (by decide) (by decide)
    (Or.inr ⟨chars "page", rfl⟩)

/-- Claim C10, counterexample: even under a validated seed list, an
anchor whose `href` attribute is an empty list makes `_extract_url`
raise `IndexError` at `raw_href[0]`, so extraction is not total over all
anchors. -/
theorem C10_counterexample :
    goodSeed (.str seedA) = true ∧
    extract_url (Node.tag (chars "a") [(chars "href", .list [])] []) [seedA] =
      .error .indexError :=
  ⟨rfl, rfl⟩

/-- Claim C10, amended: under a validated configuration (every seed URL
starts with `http://` or `https://`), `_extract_url` never raises for any
anchor whose href is missing, a string, or a non-empty list — the single
exception is an empty-list href — and splitting any such seed on `/`
always yields at least three parts, so the scheme-and-host
reconstruction cannot index out of bounds. -/
theorem C10_theorem (seeds : List Str) (anchor : Node)
    (hseeds : ∀ s ∈ seeds, pyStartsWith (chars "http://") s = true ∨
        pyStartsWith (chars "https://") s = true)
    (hhref : ¬ getAttr (chars "href") anchor = some (.list [])) :
    (∃ u, extract_url anchor seeds = .ok u) ∧
    ∀ s ∈ seeds, 3 ≤ (pySplit '/' s).length := by
  constructor
  · unfold extract_url
    cases hga : getAttr (chars "href") anchor with
    | none => exact ⟨[], rfl⟩
    | some av =>
      cases av with
      | str h => exact extractFromStr_total h seeds hseeds
      | list xs =>
        cases xs with
        | nil => exact absurd hga hhref
        | cons h t => exact extractFromStr_total h seeds hseeds
  · intro s hs
    obtain ⟨p0, p2, rest2, hsp⟩ := pySplit_http_shape s (hseeds s hs)
    rw [hsp]
    simp

/-- Witness for `C10_theorem`: a concrete string-href anchor with one
validated seed. -/
theorem C10_witness :
    (∃ u, extract_url
        (Node.tag (chars "a") [(chars "href", .str (chars "/news/123"))] [])
        [seedA] = .ok u) ∧
    ∀ s ∈ [seedA], 3 ≤ (pySplit '/' s).length :=
  C10_theorem [seedA]
    (Node.tag (chars "a") [(chars "href", .str (chars "/news/123"))] [])
    (by decide) (by decide)

/-! ## `HTMLParser._fill_article_with_text` and the title extraction of
`HTMLParser._fill_article_with_meta_information` -/

/-- The class marker of the html sub-region inside the content region. -/
def fieldClassMarker : Str := chars "field ft_html f_content auto_field"

/-- `HTMLParser._fill_article_with_text`: resolve the container chain
step by step, storing the empty string as soon as a link is missing, and
otherwise join the non-empty stripped paragraph texts with newlines. -/
def fill_article_with_text (page : Node) : Str :=
  match findNode (tagMatches (chars "div") [(chars "itemprop", chars "articleBody")]) page with
  | none => []
  | some body =>
    match findNode (tagMatches (chars "div") [(chars "class", fieldClassMarker)]) body with
    | none => []
    | some htmlField =>
      match findNode (tagMatches (chars "div") [(chars "class", chars "value")]) htmlField with
      | none => []
      | some valueDiv =>
        joinNL (((findAllNode (tagMatches (chars "p") []) valueDiv).map getTextStrip).filter
          (fun s => ¬ s = []))

/-- The container chain of the body text as one optional lookup:
content region, then marked sub-region, then value region. -/
def contentChain (page : Node) : Option Node :=
  (findNode (tagMatches (chars "div") [(chars "itemprop", chars "articleBody")]) page).bind
    (fun body =>
      (findNode (tagMatches (chars "div") [(chars "class", fieldClassMarker)]) body).bind
        (fun htmlField =>
          findNode (tagMatches (chars "div") [(chars "class", chars "value")]) htmlField))

/-- Title extraction of `_fill_article_with_meta_information`: the first
`h1`'s inner markup, stripped, with `«`/`»` replaced by `&laquo;`/`&raquo;`,
or `"NOT FOUND"` when no `h1` exists. -/
def fill_article_title (page : Node) : Str :=
  match findNode (tagMatches (chars "h1") []) page with
  | some h1 =>
    replaceChar '»' (chars "&raquo;")
      (replaceChar '«' (chars "&laquo;") (pyStrip (decodeContents h1)))
  | none => chars "NOT FOUND"

/-- Character-wise version of the two guillemet replacements: every `«`
becomes `&laquo;`, every `»` becomes `&raquo;`, every other character is
kept unchanged. -/
def guillemetEscape (s : Str) : Str :=
  s.flatMap (fun c =>
    if c = '«' then chars "&laquo;"
    else if c = '»' then chars "&raquo;"
    else [c])

lemma replaceChar_append (c : Char) (rep : Str) :
    ∀ a b : Str, replaceChar c rep (a ++ b) = replaceChar c rep a ++ replaceChar c rep b := by
  intro a
  induction a with
  | nil => intro b; rfl
  | cons x xs ih =>
    intro b
    simp only [List.cons_append, replaceChar, List.append_eq, ih, List.append_assoc]

lemma replace_guillemets_eq_escape :
    ∀ s : Str,
      replaceChar '»' (chars "&raquo;") (replaceChar '«' (chars "&laquo;") s) =
        guillemetEscape s := by
  intro s
  induction s with
  | nil => rfl
  | cons c cs ih =>
    by_cases h1 : c = '«'
    · subst h1
      have hstep : replaceChar '«' (chars "&laquo;") ('«' :: cs) =
          chars "&laquo;" ++ replaceChar '«' (chars "&laquo;") cs := by
        simp [replaceChar]
      rw [hstep, replaceChar_append]
      have hlaq : replaceChar '»' (chars "&raquo;") (chars "&laquo;") = chars "&laquo;" := rfl
      rw [hlaq, ih]
      have hesc : guillemetEscape ('«' :: cs) = chars "&laquo;" ++ guillemetEscape cs := by
        simp [guillemetEscape]
      rw [hesc]
    · by_cases h2 : c = '»'
      · subst h2
        have hstep : replaceChar '«' (chars "&laquo;") ('»' :: cs) =
            '»' :: replaceChar '«' (chars "&laquo;") cs := by
          simp [replaceChar, h1]
        rw [hstep]
        have hstep2 : replaceChar '»' (chars "&raquo;")
            ('»' :: replaceChar '«' (chars "&laquo;") cs) =
            chars "&raquo;" ++ replaceChar '»' (chars "&raquo;")
              (replaceChar '«' (chars "&laquo;") cs) := by
          simp [replaceChar]
        rw [hstep2, ih]
        have hesc : guillemetEscape ('»' :: cs) = chars "&raquo;" ++ guillemetEscape cs := by
          simp [guillemetEscape]
        rw [hesc]
      · have hstep : replaceChar '«' (chars "&laquo;") (c :: cs) =
            c :: replaceChar '«' (chars "&laquo;") cs := by
          simp [replaceChar, h1]
        rw [hstep]
        have hstep2 : replaceChar '»' (chars "&raquo;")
            (c :: replaceChar '«' (chars "&laquo;") cs) =
            c :: replaceChar '»' (chars "&raquo;")
              (replaceChar '«' (chars "&laquo;") cs) := by
          simp [replaceChar, h2]
        rw [hstep2, ih]
        have hesc : guillemetEscape (c :: cs) = c :: guillemetEscape cs := by
          simp [guillemetEscape, h1, h2]
        rw [hesc]

/-- Example fixture: a paragraph whose text strips to `A`. -/
def paraA : Node := Node.tag (chars "p") [] [Node.text (chars " A ")]

/-- Example fixture: a paragraph whose text strips to the empty string. -/
def paraEmpty : Node := Node.tag (chars "p") [] [Node.text (chars "  ")]

/-- Example fixture: the value region holding the two paragraphs. -/
def valueDivEx : Node :=
  Node.tag (chars "div") [(chars "class", .list [chars "value"])] [paraA, paraEmpty]

/-- Example fixture: the marked html sub-region. -/
def htmlFieldEx : Node :=
  Node.tag (chars "div")
    [(chars "class",
      .list [chars "field", chars "ft_html", chars "f_content", chars "auto_field"])]
    [valueDivEx]

/-- Example fixture: the content region. -/
def articleBodyEx : Node :=
  Node.tag (chars "div") [(chars "itemprop", .str (chars "articleBody"))] [htmlFieldEx]

/-- Example fixture: an article page with a fully resolving container
chain around the two paragraphs. -/
def articlePage : Node := Node.tag (chars "html") [] [articleBodyEx]


/-- Example fixture: the `h1` heading with guillemets around the title. -/
def h1Ex : Node := Node.tag (chars "h1") [] [Node.text (chars "«Title»")]

/-- Example fixture: an article page whose title carries guillemets. -/
def titlePage : Node := Node.tag (chars "html") [] [h1Ex]


/-- Claim C7: when any link of the container chain (content region, then
marked sub-region, then value region) is missing, the body text is the
empty string — no exception is modelled because the extraction is a total
function; when the full chain resolves, the body text is the
newline-join of the stripped texts of exactly the paragraphs with
non-empty stripped text; in particular two paragraphs stripping to `A`
and the empty string yield exactly `A`, with no trailing newline. -/
theorem C7_theorem :
    (∀ page : Node, contentChain page = none → fill_article_with_text page = []) ∧
    (∀ (page v : Node), contentChain page = some v →
      fill_article_with_text page =
        joinNL (((findAllNode (tagMatches (chars "p") []) v).map getTextStrip).filter
          (fun s => ¬ s = []))) ∧
    fill_article_with_text articlePage = chars "A" := by
  refine ⟨?_, ?_, rfl⟩
  · intro page hc
    unfold contentChain at hc
    unfold fill_article_with_text
    cases h1 : findNode (tagMatches (chars "div")
        [(chars "itemprop", chars "articleBody")]) page with
    | none => rfl
    | some body =>
      rw [h1] at hc
      simp only [Option.some_bind] at hc
      dsimp only
      cases h2 : findNode (tagMatches (chars "div")
          [(chars "class", fieldClassMarker)]) body with
      | none => rfl
      | some htmlField =>
        rw [h2] at hc
        simp only [Option.some_bind] at hc
        dsimp only
        cases h3 : findNode (tagMatches (chars "div")
            [(chars "class", chars "value")]) htmlField with
        | none => rfl
        | some v => rw [h3] at hc; exact absurd hc (by simp)
  · intro page v hc
    unfold contentChain at hc
    unfold fill_article_with_text
    cases h1 : findNode (tagMatches (chars "div")
        [(chars "itemprop", chars "articleBody")]) page with
    | none => rw [h1] at hc; exact absurd hc (by simp)
    | some body =>
      rw [h1] at hc
      simp only [Option.some_bind] at hc
      dsimp only
      cases h2 : findNode (tagMatches (chars "div")
          [(chars "class", fieldClassMarker)]) body with
      | none => rw [h2] at hc; exact absurd hc (by simp)
      | some htmlField =>
        rw [h2] at hc
        simp only [Option.some_bind] at hc
        dsimp only
        cases h3 : findNode (tagMatches (chars "div")
            [(chars "class", chars "value")]) htmlField with
        | none => rw [h3] at hc; exact absurd hc (by simp)
        | some v2 =>
          rw [h3] at hc
          injection hc with hv
          rw [hv]

/-- Witness for `C7_theorem`: the fixture page resolves the chain to the
value region, a bare text node resolves nothing. -/
theorem C7_witness :
    fill_article_with_text (Node.text (chars "no markup")) = [] ∧
    fill_article_with_text articlePage =
      joinNL (((findAllNode (tagMatches (chars "p") []) valueDivEx).map getTextStrip).filter
        (fun s => ¬ s = [])) :=
  ⟨C7_theorem.1 (Node.text (chars "no markup")) rfl,
   C7_theorem.2.1 articlePage valueDivEx rfl⟩

/-- Claim C8: when a first `h1` exists, the stored title is its stripped
inner markup with every `«` replaced by `&laquo;`, every `»` replaced by
`&raquo;`, and every other character unchanged (the character-wise
`guillemetEscape`); when no `h1` exists the title is `"NOT FOUND"`; the
fixture title `«Title»` becomes `&laquo;Title&raquo;`. -/
theorem C8_theorem :
    (∀ (page h1 : Node), findNode (tagMatches (chars "h1") []) page = some h1 →
      fill_article_title page = guillemetEscape (pyStrip (decodeContents h1))) ∧
    (∀ page : Node, findNode (tagMatches (chars "h1") []) page = none →
      fill_article_title page = chars "NOT FOUND") ∧
    fill_article_title titlePage = chars "&laquo;Title&raquo;" := by
  refine ⟨?_, ?_, rfl⟩
  · intro page h1 hf
    unfold fill_article_title
    rw [hf]
    exact replace_guillemets_eq_escape (pyStrip (decodeContents h1))
  · intro page hf
    unfold fill_article_title
    rw [hf]

/-- Witness for `C8_theorem`: the guillemet fixture page and a bare text
node without any heading. -/
theorem C8_witness :
    fill_article_title titlePage = guillemetEscape (pyStrip (decodeContents h1Ex)) ∧
    fill_article_title (Node.text (chars "t")) = chars "NOT FOUND" :=
  ⟨C8_theorem.1 titlePage h1Ex rfl,
   C8_theorem.2.1 (Node.text (chars "t")) rfl⟩
